import Mathlib

/-!
Verification of the pairwise Euclidean distance variants in
`src/notebooks/misc/CodeOptimization.ipynb`.

The numeric semantics of the notebook is double-precision floating point;
the embedding models coordinates and distances as real numbers, so every
"equal within floating-point rounding" statement of the spec is settled as
exact equality over the reals, and `sqrt` is `Real.sqrt`.

The input `xs` is a NumPy 2-D `float64` array of shape `(n, p)`; such an
array is rectangular by construction, so it is embedded as a structure
carrying the two shape fields and the entry function.  Out-of-range
entries are unobservable junk.
-/

/-- A 2-D numeric array of shape `(rows, cols)`: the embedding of a NumPy
`float64` matrix.  `entry i j` is the value at row `i`, column `j`;
indices outside the shape are junk. -/
structure Mat where
  rows : Nat
  cols : Nat
  entry : Nat → Nat → ℝ

/-- The mutable state of `pdist_python`'s loop nest: the input array `xs`
(read-only in the source, but modelled as part of the state so that its
preservation is a theorem, not an assumption) and the output buffer `D`
allocated by `np.empty((n, n))`.  The uninitialized `np.empty` junk is
modelled as `0`; every in-range cell is overwritten before being read. -/
structure PState where
  xs : Mat
  D : Nat → Nat → ℝ

/-- The inner `k` loop of `pdist_python`:
`s = 0.0; for k in range(p): tmp = xs[i,k] - xs[j,k]; s += tmp * tmp`. -/
noncomputable def sumSq (xs : Mat) (p i j : Nat) : ℝ :=
  (List.range p).foldl
    (fun s k => s + (xs.entry i k - xs.entry j k) * (xs.entry i k - xs.entry j k)) 0

/-- The single assignment `D[i, j] = v` of `pdist_python`: it updates the
output buffer and leaves the input array untouched. -/
noncomputable def writeD (st : PState) (i j : Nat) (v : ℝ) : PState :=
  ⟨st.xs, fun a b => if a = i ∧ b = j then v else st.D a b⟩

/-- The middle `j` loop of `pdist_python`:
`for j in range(n): ... ; D[i, j] = sqrt(s)`. -/
noncomputable def jLoop (n p i : Nat) (st : PState) : PState :=
  (List.range n).foldl
    (fun st j => writeD st i j (Real.sqrt (sumSq st.xs p i j))) st

/-- The outer `i` loop of `pdist_python`, ranging over `m` rows. -/
noncomputable def iLoop (n p m : Nat) (st : PState) : PState :=
  (List.range m).foldl (fun st i => jLoop n p i st) st

/-- Running `pdist_python`'s loop nest from the freshly allocated state:
`n, p = xs.shape; D = np.empty((n, n)); for i in range(n): ...`. -/
noncomputable def pdist_run (xs : Mat) : PState :=
  iLoop xs.rows xs.cols xs.rows ⟨xs, fun _ _ => 0⟩

/-- `pdist_python` from cell 6 of the notebook: the pure-Python triple
loop.  Returns the `(n, n)` array `D` produced by the loop nest. -/
noncomputable def pdist_python (xs : Mat) : Mat :=
  ⟨xs.rows, xs.rows, (pdist_run xs).D⟩

/-- The broadcast difference tensor `xs[:, None, :] - xs` of shape
`(n, n, p)`: entry `(i, j, k)` is `xs[i, k] - xs[j, k]`. -/
noncomputable def bdiff (xs : Mat) (i j k : Nat) : ℝ :=
  xs.entry i k - xs.entry j k

/-- `pdist_numpy` from cell 10:
`np.sqrt(((xs[:, None, :] - xs) ** 2).sum(-1))` — square the broadcast
difference tensor, sum along the last axis, take the elementwise root. -/
noncomputable def pdist_numpy (xs : Mat) : Mat :=
  ⟨xs.rows, xs.rows, fun i j =>
    Real.sqrt (∑ k in Finset.range xs.cols, (bdiff xs i j k) ^ 2)⟩

/-- `pdist_numexpr` from cell 14:
`a = xs[:, np.newaxis, :]; np.sqrt(ne.evaluate('sum((a-xs)**2, axis=2)'))`
— the numexpr expression has the same broadcasting semantics. -/
noncomputable def pdist_numexpr (xs : Mat) : Mat :=
  ⟨xs.rows, xs.rows, fun i j =>
    Real.sqrt (∑ k in Finset.range xs.cols, (xs.entry i k - xs.entry j k) ^ 2)⟩

/-- `pdist_numba = jit(pdist_python)` from cell 18: `numba.jit` compiles
the very same Python function, so its denotation is that of
`pdist_python`. -/
noncomputable def pdist_numba : Mat → Mat :=
  pdist_python

/-- The inner `k` loop of the Cython version (cell 23), with its
accumulator `d`:
`d = 0.0; for k in range(p): tmp = xs[i, k] - xs[j, k]; d += tmp * tmp`. -/
noncomputable def sumSqCy (xs : Mat) (p i j : Nat) : ℝ :=
  (List.range p).foldl
    (fun d k => d + (xs.entry i k - xs.entry j k) * (xs.entry i k - xs.entry j k)) 0

/-- The middle `j` loop of the Cython version: `D[i, j] = sqrt(d)`. -/
noncomputable def jLoopCy (n p i : Nat) (st : PState) : PState :=
  (List.range n).foldl
    (fun st j => writeD st i j (Real.sqrt (sumSqCy st.xs p i j))) st

/-- The outer `i` loop of the Cython version. -/
noncomputable def iLoopCy (n p m : Nat) (st : PState) : PState :=
  (List.range m).foldl (fun st i => jLoopCy n p i st) st

/-- `pdist_cython` from cell 23: the statically compiled triple loop with
bounds checks elided; structurally the same loop nest as `pdist_python`,
returning `np.asarray(D)`. -/
noncomputable def pdist_cython (xs : Mat) : Mat :=
  ⟨xs.rows, xs.rows,
    (iLoopCy xs.rows xs.cols xs.rows ⟨xs, fun _ _ => 0⟩).D⟩

/-- Modelled from the spec: `pdist_scipy` is
`scipy.spatial.distance.pdist` imported in cell 27; its source is not in
this repository.  Per its documented contract it returns, for an
`(n, p)` input, the condensed distance vector of length `n*(n-1)/2`: for
each `i < j` the Euclidean distance between rows `i` and `j`, laid out
as the row-major upper triangle (entry `n*i + j - ((i+2)*(i+1))/2`). -/
noncomputable def pdist_scipy (xs : Mat) : List ℝ :=
  (List.range xs.rows).flatMap fun i =>
    (List.drop (i + 1) (List.range xs.rows)).map fun j =>
      Real.sqrt (∑ k in Finset.range xs.cols, (xs.entry i k - xs.entry j k) ^ 2)

/-- The index into the condensed vector documented by scipy for the pair
`(i, j)` with `i < j` out of `n` points. -/
def condIndex (n i j : Nat) : Nat :=
  n * i + j - ((i + 2) * (i + 1)) / 2

/-! ### Characterization of the loop nest -/

lemma jLoop_succ (n p i : Nat) (st : PState) :
    jLoop (n + 1) p i st =
      writeD (jLoop n p i st) i n
        (Real.sqrt (sumSq (jLoop n p i st).xs p i n)) := by
  unfold jLoop
  rw [List.range_succ, List.foldl_append]
  rfl

lemma jLoop_xs (n p i : Nat) (st : PState) : (jLoop n p i st).xs = st.xs := by
  induction n with
  | zero => rfl
  | succ n ih => rw [jLoop_succ, writeD, ih]

lemma jLoop_D (n p i : Nat) (st : PState) (a b : Nat) :
    (jLoop n p i st).D a b =
      if a = i ∧ b < n then Real.sqrt (sumSq st.xs p i b) else st.D a b := by
  induction n with
  | zero => simp [jLoop]
  | succ n ih =>
    rw [jLoop_succ, writeD, jLoop_xs]
    by_cases hab : a = i ∧ b = n
    · simp only [hab, if_pos, ih]
      have : ¬ (a = i ∧ b < n) := by omega
      simp [hab.1, hab.2, this]
    · simp only [hab, if_neg, ih, if_false]
      by_cases h1 : a = i ∧ b < n
      · have h2 : a = i ∧ b < n + 1 := by omega
        simp [h1, h2]
      · have h2 : ¬ (a = i ∧ b < n + 1) := by
          rcases Decidable.em (a = i) with hi | hi
          · intro hc
            exact hab ⟨hi, by omega⟩
          · intro hc
            exact hi hc.1
        simp [h1, h2]

lemma iLoop_succ (n p m : Nat) (st : PState) :
    iLoop n p (m + 1) st = jLoop n p m (iLoop n p m st) := by
  unfold iLoop
  rw [List.range_succ, List.foldl_append]
  rfl

lemma iLoop_xs (n p m : Nat) (st : PState) : (iLoop n p m st).xs = st.xs := by
  induction m with
  | zero => rfl
  | succ m ih => rw [iLoop_succ, jLoop_xs, ih]

lemma iLoop_D (n p m : Nat) (st : PState) (a b : Nat) :
    (iLoop n p m st).D a b =
      if a < m ∧ b < n then Real.sqrt (sumSq st.xs p a b) else st.D a b := by
  induction m with
  | zero => simp [iLoop]
  | succ m ih =>
    rw [iLoop_succ, jLoop_D, iLoop_xs, ih]
    by_cases h1 : a = m ∧ b < n
    · have h2 : ¬ (a < m ∧ b < n) := by omega
      have h3 : a < m + 1 ∧ b < n := by omega
      simp [h1, h2, h3, h1.1]
    · by_cases h2 : a < m ∧ b < n
      · have h3 : a < m + 1 ∧ b < n := by omega
        have h4 : a ≠ m := by omega
        simp [h1, h2, h3, h4]
      · have h3 : ¬ (a < m + 1 ∧ b < n) := by
          rcases Decidable.em (b < n) with hb | hb
          · intro hc
            rcases Nat.lt_succ_iff_lt_or_eq.mp hc.1 with hm | hm
            · exact h2 ⟨hm, hb⟩
            · exact h1 ⟨hm, hb⟩
          · intro hc
            exact hb hc.2
        simp [h1, h2, h3]

/-- The inner accumulation equals the mathematical sum of squared
coordinate differences. -/
lemma sumSq_eq_sum (xs : Mat) (p i j : Nat) :
    sumSq xs p i j = ∑ k in Finset.range p, (xs.entry i k - xs.entry j k) ^ 2 := by
  induction p with
  | zero => simp [sumSq]
  | succ p ih =>
    unfold sumSq at ih ⊢
    rw [List.range_succ, List.foldl_append, ih, Finset.sum_range_succ]
    simp [pow_two]

/-- Entrywise closed form of `pdist_python` on in-range indices. -/
lemma pdist_python_entry (xs : Mat) (i j : Nat)
    (hi : i < xs.rows) (hj : j < xs.rows) :
    (pdist_python xs).entry i j =
      Real.sqrt (∑ k in Finset.range xs.cols, (xs.entry i k - xs.entry j k) ^ 2) := by
  show (pdist_run xs).D i j = _
  unfold pdist_run
  rw [iLoop_D]
  simp [hi, hj, sumSq_eq_sum]

/-- The Cython loop nest is definitionally the same computation as the
Python one. -/
lemma pdist_cython_eq_python : pdist_cython = pdist_python := rfl

/-! ### The condensed layout of the scipy output -/

lemma list_range_map_sum (f : Nat → Nat) (n : Nat) :
    ((List.range n).map f).sum = ∑ i in Finset.range n, f i := by
  induction n with
  | zero => simp
  | succ n ih =>
    rw [List.range_succ, List.map_append, List.sum_append, Finset.sum_range_succ, ih]
    simp

lemma flatten_getElem_sum {α : Type _} :
    ∀ (Ls : List (List α)) (i t : Nat) (hi : i < Ls.length),
      t < Ls[i].length →
      Ls.flatten[((Ls.take i).map List.length).sum + t]? = Ls[i][t]? := by
  intro Ls
  induction Ls with
  | nil =>
    intro i t hi _
    simp at hi
  | cons x rest ih =>
    intro i t hi ht
    cases i with
    | zero =>
      simp only [List.take_zero, List.map_nil, List.sum_nil, Nat.zero_add,
        List.flatten_cons, List.getElem_cons_zero] at ht ⊢
      exact List.getElem?_append_left ht
    | succ i =>
      simp only [List.take_succ_cons, List.map_cons, List.sum_cons,
        List.flatten_cons, List.getElem_cons_succ] at ht ⊢
      rw [Nat.add_assoc, List.getElem?_append_right (by omega),
        Nat.add_sub_cancel_left]
      exact ih i t (by simpa using hi) ht

lemma gauss_partial (n : Nat) :
    ∀ i, i ≤ n →
      2 * (∑ r in Finset.range i, (n - (r + 1))) + i * (i + 1) = 2 * n * i := by
  intro i
  induction i with
  | zero => intro _; simp
  | succ i ih =>
    intro h
    have ih1 := ih (by omega)
    rw [Finset.sum_range_succ]
    zify [show i + 1 ≤ n from h] at ih1 ⊢
    linear_combination ih1

lemma condIndex_eq (n i j : Nat) (hij : i < j) (hj : j < n) :
    condIndex n i j = (∑ r in Finset.range i, (n - (r + 1))) + (j - (i + 1)) := by
  have h2 := gauss_partial n i (by omega)
  rw [Nat.mul_assoc] at h2
  have e : (i + 2) * (i + 1) = i * (i + 1) + 2 * (i + 1) := by ring
  unfold condIndex
  rw [e]
  revert h2
  generalize (∑ r in Finset.range i, (n - (r + 1))) = S
  generalize i * (i + 1) = A
  generalize n * i = B
  intro h2
  omega

/-- The scipy condensed vector has length `n*(n-1)/2`. -/
lemma pdist_scipy_length (xs : Mat) :
    (pdist_scipy xs).length = xs.rows * (xs.rows - 1) / 2 := by
  unfold pdist_scipy
  rw [List.flatMap_def, List.length_flatten, List.map_map]
  have hcomp :
      (List.length ∘ fun i =>
          (List.drop (i + 1) (List.range xs.rows)).map fun j =>
            Real.sqrt (∑ k in Finset.range xs.cols, (xs.entry i k - xs.entry j k) ^ 2)) =
        fun i => xs.rows - (i + 1) := by
    funext i
    simp [List.length_map, List.length_drop, List.length_range]
  rw [hcomp, list_range_map_sum]
  have h1 : ∑ i in Finset.range xs.rows, (xs.rows - (i + 1)) =
      ∑ i in Finset.range xs.rows, (xs.rows - 1 - i) :=
    Finset.sum_congr rfl fun i _ => by omega
  rw [h1, Finset.sum_range_reflect (fun i => i) xs.rows]
  exact Finset.sum_range_id xs.rows

/-- The scipy condensed vector holds, at the documented index for the
pair `(i, j)` with `i < j`, the Euclidean distance between rows `i` and
`j`. -/
lemma pdist_scipy_getElem (xs : Mat) (i j : Nat) (hij : i < j) (hj : j < xs.rows) :
    (pdist_scipy xs)[condIndex xs.rows i j]? =
      some (Real.sqrt (∑ k in Finset.range xs.cols, (xs.entry i k - xs.entry j k) ^ 2)) := by
  unfold pdist_scipy
  rw [List.flatMap_def]
  have hi' : i < ((List.range xs.rows).map fun i =>
      (List.drop (i + 1) (List.range xs.rows)).map fun j =>
        Real.sqrt (∑ k in Finset.range xs.cols, (xs.entry i k - xs.entry j k) ^ 2)).length := by
    simp only [List.length_map, List.length_range]
    omega
  have ht' : j - (i + 1) < (((List.range xs.rows).map fun i =>
      (List.drop (i + 1) (List.range xs.rows)).map fun j =>
        Real.sqrt (∑ k in Finset.range xs.cols, (xs.entry i k - xs.entry j k) ^ 2))[i]).length := by
    simp only [List.getElem_map, List.getElem_range, List.length_map,
      List.length_drop, List.length_range]
    omega
  have hidx : condIndex xs.rows i j =
      ((((List.range xs.rows).map fun i =>
        (List.drop (i + 1) (List.range xs.rows)).map fun j =>
          Real.sqrt (∑ k in Finset.range xs.cols, (xs.entry i k - xs.entry j k) ^ 2)).take i).map
            List.length).sum + (j - (i + 1)) := by
    rw [condIndex_eq xs.rows i j hij hj]
    congr 1
    rw [← List.map_take, List.take_range,
      Nat.min_eq_left (by omega : i ≤ xs.rows), List.map_map]
    have hcomp :
        (List.length ∘ fun r =>
            (List.drop (r + 1) (List.range xs.rows)).map fun j =>
              Real.sqrt (∑ k in Finset.range xs.cols, (xs.entry r k - xs.entry j k) ^ 2)) =
          fun r => xs.rows - (r + 1) := by
      funext r
      simp [List.length_map, List.length_drop, List.length_range]
    rw [hcomp, list_range_map_sum]
  rw [hidx, flatten_getElem_sum _ i (j - (i + 1)) hi' ht']
  simp only [List.getElem_map, List.getElem_range, List.getElem?_map, List.getElem?_drop]
  rw [show i + 1 + (j - (i + 1)) = j by omega, List.getElem?_range hj]
  rfl

/-! ### Rows as points of Euclidean space -/

/-- Row `a` of `xs` viewed as a point of the Euclidean space `ℝ^p`. -/
noncomputable def rowPt (xs : Mat) (a : Nat) : EuclideanSpace ℝ (Fin xs.cols) :=
  (WithLp.equiv 2 (Fin xs.cols → ℝ)).symm fun t => xs.entry a t.val

/-- The entry formula of the distance matrix is the Euclidean metric on
the rows. -/
lemma dist_rowPt (xs : Mat) (a b : Nat) :
    dist (rowPt xs a) (rowPt xs b) =
      Real.sqrt (∑ k in Finset.range xs.cols, (xs.entry a k - xs.entry b k) ^ 2) := by
  rw [EuclideanSpace.dist_eq]
  congr 1
  have h : ∀ t : Fin xs.cols,
      dist (rowPt xs a t) (rowPt xs b t) ^ 2 = (xs.entry a t.val - xs.entry b t.val) ^ 2 := by
    intro t
    simp only [rowPt, WithLp.equiv_symm_pi_apply]
    rw [Real.dist_eq, sq_abs]
  rw [Finset.sum_congr rfl fun t _ => h t]
  exact Fin.sum_univ_eq_sum_range (fun k => (xs.entry a k - xs.entry b k) ^ 2) xs.cols

/-! ### Concrete inputs for the witnesses and counterexamples -/

/-- The two points `[[0, 0], [3, 4]]` from the spec's scenario table. -/
noncomputable def exPts : Mat :=
  ⟨2, 2, fun i k => if i = 0 then 0 else if k = 0 then 3 else 4⟩

/-- An input with `n = 0` rows and `p = 3` columns. -/
noncomputable def exRows0 : Mat := ⟨0, 3, fun _ _ => 0⟩

/-- A malformed input of shape `(2, 0)`: two points with zero coordinate
columns. -/
noncomputable def exCols0 : Mat := ⟨2, 0, fun _ _ => 0⟩

/-- Three collinear points `0, 1, 2` on the real line. -/
noncomputable def exTri : Mat := ⟨3, 1, fun i _ => (i : ℝ)⟩

/-! ### The claims -/

/-- Claim C1: for every rectangular input of shape `(n, p)` with `p ≥ 1`,
`pdist_python` returns a matrix of shape `(n, n)` whose entry `(i, j)`
equals the square root of the sum over `k` from `0` to `p-1` of the
squared difference `(points[i][k] - points[j][k])^2`. -/
theorem C1_pdist_python_contract (xs : Mat) (_hp : 1 ≤ xs.cols) :
    (pdist_python xs).rows = xs.rows ∧ (pdist_python xs).cols = xs.rows ∧
    ∀ i j, i < xs.rows → j < xs.rows →
      (pdist_python xs).entry i j =
        Real.sqrt (∑ k in Finset.range xs.cols, (xs.entry i k - xs.entry j k) ^ 2) :=
  ⟨rfl, rfl, fun i j hi hj => pdist_python_entry xs i j hi hj⟩

/-- Witness for C1 at the concrete input `[[0, 0], [3, 4]]`. -/
theorem C1_witness :
    1 ≤ exPts.cols ∧
      ((pdist_python exPts).rows = exPts.rows ∧ (pdist_python exPts).cols = exPts.rows ∧
        ∀ i j, i < exPts.rows → j < exPts.rows →
          (pdist_python exPts).entry i j =
            Real.sqrt (∑ k in Finset.range exPts.cols, (exPts.entry i k - exPts.entry j k) ^ 2)) :=
  ⟨by decide, C1_pdist_python_contract exPts (by decide)⟩

/-- Claim C2: on every rectangular input with `p ≥ 1`, the variants
`pdist_python`, `pdist_numpy`, `pdist_numexpr`, `pdist_numba` and
`pdist_cython` produce equal `n×n` result matrices (exactly, in the
real-number semantics that settles "equal within floating-point
rounding"). -/
theorem C2_variants_agree (xs : Mat) (_hp : 1 ≤ xs.cols) :
    (pdist_numpy xs).rows = (pdist_python xs).rows ∧
    (pdist_numpy xs).cols = (pdist_python xs).cols ∧
    (pdist_numexpr xs).rows = (pdist_python xs).rows ∧
    (pdist_numexpr xs).cols = (pdist_python xs).cols ∧
    (pdist_numba xs).rows = (pdist_python xs).rows ∧
    (pdist_numba xs).cols = (pdist_python xs).cols ∧
    (pdist_cython xs).rows = (pdist_python xs).rows ∧
    (pdist_cython xs).cols = (pdist_python xs).cols ∧
    ∀ i j, i < xs.rows → j < xs.rows →
      (pdist_numpy xs).entry i j = (pdist_python xs).entry i j ∧
      (pdist_numexpr xs).entry i j = (pdist_python xs).entry i j ∧
      (pdist_numba xs).entry i j = (pdist_python xs).entry i j ∧
      (pdist_cython xs).entry i j = (pdist_python xs).entry i j := by
  refine ⟨rfl, rfl, rfl, rfl, rfl, rfl, rfl, rfl, fun i j hi hj => ?_⟩
  have h := pdist_python_entry xs i j hi hj
  refine ⟨?_, ?_, ?_, ?_⟩
  · simp only [pdist_numpy, bdiff, h]
  · simp only [pdist_numexpr, h]
  · exact (pdist_python_entry xs i j hi hj).trans h.symm
  · rw [pdist_cython_eq_python]

/-- Witness for C2 at the concrete input `[[0, 0], [3, 4]]`. -/
theorem C2_witness :
    1 ≤ exPts.cols ∧
      ((pdist_numpy exPts).rows = (pdist_python exPts).rows ∧
      (pdist_numpy exPts).cols = (pdist_python exPts).cols ∧
      (pdist_numexpr exPts).rows = (pdist_python exPts).rows ∧
      (pdist_numexpr exPts).cols = (pdist_python exPts).cols ∧
      (pdist_numba exPts).rows = (pdist_python exPts).rows ∧
      (pdist_numba exPts).cols = (pdist_python exPts).cols ∧
      (pdist_cython exPts).rows = (pdist_python exPts).rows ∧
      (pdist_cython exPts).cols = (pdist_python exPts).cols ∧
      ∀ i j, i < exPts.rows → j < exPts.rows →
        (pdist_numpy exPts).entry i j = (pdist_python exPts).entry i j ∧
        (pdist_numexpr exPts).entry i j = (pdist_python exPts).entry i j ∧
        (pdist_numba exPts).entry i j = (pdist_python exPts).entry i j ∧
        (pdist_cython exPts).entry i j = (pdist_python exPts).entry i j) :=
  ⟨by decide, C2_variants_agree exPts (by decide)⟩

/-- Claim C3 counterexample: `pdist_python` performs no input validation
at all: on the concrete shape-`(2, 0)` input it returns a 2×2 result
matrix (of exact zeros) instead of rejecting the input; no InvalidInput
error exists anywhere in the notebook. -/
theorem C3_counterexample :
    (pdist_python exCols0).rows = 2 ∧ (pdist_python exCols0).cols = 2 ∧
    (pdist_python exCols0).entry 0 0 = 0 ∧ (pdist_python exCols0).entry 0 1 = 0 ∧
    (pdist_python exCols0).entry 1 0 = 0 ∧ (pdist_python exCols0).entry 1 1 = 0 := by
  refine ⟨rfl, rfl, ?_, ?_, ?_, ?_⟩ <;>
    · rw [pdist_python_entry exCols0 _ _ (by decide) (by decide)]
      simp [exCols0]

/-- Claim C3 (amended): the code performs no input validation; on an
input of shape `(n, 0)` it returns an `n×n` matrix whose every in-range
entry is exactly `0` (the square root of the empty sum), rather than
raising an error. -/
theorem C3_amended_no_validation (xs : Mat) (h : xs.cols = 0) :
    (pdist_python xs).rows = xs.rows ∧ (pdist_python xs).cols = xs.rows ∧
    ∀ i j, i < xs.rows → j < xs.rows → (pdist_python xs).entry i j = 0 := by
  refine ⟨rfl, rfl, fun i j hi hj => ?_⟩
  rw [pdist_python_entry xs i j hi hj, h]
  simp

/-- Witness for the amended C3 at the shape-`(2, 0)` input. -/
theorem C3_amended_witness :
    exCols0.cols = 0 ∧
      ((pdist_python exCols0).rows = exCols0.rows ∧
        (pdist_python exCols0).cols = exCols0.rows ∧
        ∀ i j, i < exCols0.rows → j < exCols0.rows →
          (pdist_python exCols0).entry i j = 0) :=
  ⟨rfl, C3_amended_no_validation exCols0 rfl⟩

/-- Claim C4 counterexample: on the two-point input `[[0, 0], [3, 4]]`,
`pdist_scipy` returns a condensed vector of length `1`, not a `2×2`
matrix: its observable result is not an `n×n` DistanceMatrix. -/
theorem C4_counterexample :
    (pdist_scipy exPts).length = 1 ∧ exPts.rows = 2 ∧ (1 : Nat) ≠ 2 * 2 := by
  refine ⟨?_, rfl, by decide⟩
  rw [pdist_scipy_length]
  rfl

/-- Claim C4 (amended): `pdist_scipy` returns the condensed distance
vector of length `n*(n-1)/2`; for every pair `i < j < n` its entry at the
documented condensed index equals entry `(i, j)` of the matrix returned
by `pdist_python` (exactly, in the real-number semantics). -/
theorem C4_amended_condensed (xs : Mat) (i j : Nat) (hij : i < j) (hj : j < xs.rows) :
    (pdist_scipy xs).length = xs.rows * (xs.rows - 1) / 2 ∧
    (pdist_scipy xs)[condIndex xs.rows i j]? = some ((pdist_python xs).entry i j) := by
  refine ⟨pdist_scipy_length xs, ?_⟩
  rw [pdist_scipy_getElem xs i j hij hj, pdist_python_entry xs i j (by omega) hj]

/-- Witness for the amended C4 at the two-point input and pair `(0, 1)`. -/
theorem C4_amended_witness :
    (0 : Nat) < 1 ∧ 1 < exPts.rows ∧
      ((pdist_scipy exPts).length = exPts.rows * (exPts.rows - 1) / 2 ∧
        (pdist_scipy exPts)[condIndex exPts.rows 0 1]? =
          some ((pdist_python exPts).entry 0 1)) :=
  ⟨by decide, by decide, C4_amended_condensed exPts 0 1 (by decide) (by decide)⟩

/-- Claim C5: the matrix returned by `pdist_python` is exactly symmetric:
`D[i][j] = D[j][i]` for all in-range indices. -/
theorem C5_symmetric (xs : Mat) (i j : Nat) (_hp : 1 ≤ xs.cols)
    (hi : i < xs.rows) (hj : j < xs.rows) :
    (pdist_python xs).entry i j = (pdist_python xs).entry j i := by
  rw [pdist_python_entry xs i j hi hj, pdist_python_entry xs j i hj hi]
  congr 1
  exact Finset.sum_congr rfl fun k _ => by ring

/-- Witness for C5 at the two-point input and indices `(0, 1)`. -/
theorem C5_witness :
    1 ≤ exPts.cols ∧ (0 : Nat) < exPts.rows ∧ 1 < exPts.rows ∧
      (pdist_python exPts).entry 0 1 = (pdist_python exPts).entry 1 0 :=
  ⟨by decide, by decide, by decide,
    C5_symmetric exPts 0 1 (by decide) (by decide) (by decide)⟩

/-- Claim C6: every diagonal entry of the returned matrix is exactly `0`
(the accumulated sum of zero differences is exactly zero, and the square
root of zero is zero). -/
theorem C6_zero_diagonal (xs : Mat) (i : Nat) (_hp : 1 ≤ xs.cols) (hi : i < xs.rows) :
    (pdist_python xs).entry i i = 0 := by
  rw [pdist_python_entry xs i i hi hi]
  simp

/-- Witness for C6 at the two-point input and index `0`. -/
theorem C6_witness :
    1 ≤ exPts.cols ∧ (0 : Nat) < exPts.rows ∧ (pdist_python exPts).entry 0 0 = 0 :=
  ⟨by decide, by decide, C6_zero_diagonal exPts 0 (by decide) (by decide)⟩

/-- Claim C7: every entry of the returned matrix is non-negative. -/
theorem C7_nonneg (xs : Mat) (i j : Nat) (_hp : 1 ≤ xs.cols)
    (hi : i < xs.rows) (hj : j < xs.rows) :
    0 ≤ (pdist_python xs).entry i j := by
  rw [pdist_python_entry xs i j hi hj]
  exact Real.sqrt_nonneg _

/-- Witness for C7 at the two-point input and indices `(0, 1)`. -/
theorem C7_witness :
    1 ≤ exPts.cols ∧ (0 : Nat) < exPts.rows ∧ 1 < exPts.rows ∧
      0 ≤ (pdist_python exPts).entry 0 1 :=
  ⟨by decide, by decide, by decide,
    C7_nonneg exPts 0 1 (by decide) (by decide) (by decide)⟩

/-- Claim C8: the returned matrix satisfies the triangle inequality
`D[i][k] ≤ D[i][j] + D[j][k]` (exactly, over the reals). -/
theorem C8_triangle_inequality (xs : Mat) (i j k : Nat) (_hp : 1 ≤ xs.cols)
    (hi : i < xs.rows) (hj : j < xs.rows) (hk : k < xs.rows) :
    (pdist_python xs).entry i k ≤
      (pdist_python xs).entry i j + (pdist_python xs).entry j k := by
  rw [pdist_python_entry xs i k hi hk, pdist_python_entry xs i j hi hj,
    pdist_python_entry xs j k hj hk, ← dist_rowPt, ← dist_rowPt, ← dist_rowPt]
  exact dist_triangle _ _ _

/-- Witness for C8 at the three collinear points and indices `(0, 1, 2)`. -/
theorem C8_witness :
    1 ≤ exTri.cols ∧ (0 : Nat) < exTri.rows ∧ 1 < exTri.rows ∧ 2 < exTri.rows ∧
      (pdist_python exTri).entry 0 2 ≤
        (pdist_python exTri).entry 0 1 + (pdist_python exTri).entry 1 2 :=
  ⟨by decide, by decide, by decide, by decide,
    C8_triangle_inequality exTri 0 1 2 (by decide) (by decide) (by decide) (by decide)⟩

/-- Claim C9: on an input with `n = 0` rows (and any `p ≥ 1` columns),
`pdist_python` returns an empty `0×0` matrix rather than failing. -/
theorem C9_empty_input (xs : Mat) (_hp : 1 ≤ xs.cols) (hn : xs.rows = 0) :
    (pdist_python xs).rows = 0 ∧ (pdist_python xs).cols = 0 :=
  ⟨hn, hn⟩

/-- Witness for C9 at the shape-`(0, 3)` input. -/
theorem C9_witness :
    1 ≤ exRows0.cols ∧ exRows0.rows = 0 ∧
      ((pdist_python exRows0).rows = 0 ∧ (pdist_python exRows0).cols = 0) :=
  ⟨by decide, rfl, C9_empty_input exRows0 (by decide) rfl⟩

/-- Claim C10: the computation is deterministic and pure: after the loop
nest runs, the state still holds the input array unchanged (the loop only
ever writes to the freshly allocated `D`), and calling it twice on the
same input yields identical output. -/
theorem C10_pure_deterministic (xs : Mat) :
    (pdist_run xs).xs = xs ∧ pdist_python xs = pdist_python xs :=
  ⟨iLoop_xs xs.rows xs.cols xs.rows ⟨xs, fun _ _ => 0⟩, rfl⟩
